import Mathlib

/-!
Verification of the Snaffler PowerBI conversion scripts
(`scripts/PowerBI-unflatten.py` and `scripts/PowerBI-merge-converted.py`).

The scripts operate on parsed JSON values.  We embed the JSON data model as
an inductive type; Python dicts are ordered association lists with first-match
lookup (Python dicts have unique keys, so first-match agrees with dict lookup),
and Python truthiness is modelled explicitly.  A Python function that can raise
becomes an `Option`-valued Lean function (`none` = an exception propagates).
-/

/-- A parsed JSON value.  Python `json.load` produces `None`/`bool`/`int`/
`float`/`str`/`list`/`dict`; numbers are modelled by `Int` (no claim depends
on floats), objects by insertion-ordered association lists. -/
inductive Json where
  | null : Json
  | bool : Bool → Json
  | num : Int → Json
  | str : String → Json
  | arr : List Json → Json
  | obj : List (String × Json) → Json

/-- Python truthiness of a JSON value: `None`, `False`, `0`, `""`, `[]`, `{}`
are falsy, everything else is truthy. -/
def Json.truthy : Json → Bool
  | .null => false
  | .bool b => b
  | .num n => n != 0
  | .str s => !s.isEmpty
  | .arr xs => !xs.isEmpty
  | .obj fs => !fs.isEmpty

/-- Whether the value is a JSON object (a Python `dict`). -/
def Json.isObj : Json → Bool
  | .obj _ => true
  | _ => false

/-- Whether the value is a JSON array (a Python `list`). -/
def Json.isArr : Json → Bool
  | .arr _ => true
  | _ => false

/-- Python `d.get(k)` / `k in d` on a dict: first entry with the given key. -/
def dictGet (fs : List (String × Json)) (k : String) : Option Json :=
  match fs with
  | [] => none
  | (k₁, v) :: rest => if k₁ = k then some v else dictGet rest k

/-- Python `d[k] = v`: replace the value at the first occurrence of `k`
(keeping its position), or append `(k, v)` when `k` is absent. -/
def dictSet (fs : List (String × Json)) (k : String) (v : Json) :
    List (String × Json) :=
  match fs with
  | [] => [(k, v)]
  | (k₁, v₁) :: rest =>
    if k₁ = k then (k₁, v) :: rest else (k₁, v₁) :: dictSet rest k v

/-- The dict-literal merge `{**base, **ps}`: assign the pairs of `ps` into
`base` in order, each assignment with Python `d[k] = v` semantics. -/
def dictInsertAll (base : List (String × Json)) (ps : List (String × Json)) :
    List (String × Json) :=
  ps.foldl (fun d p => dictSet d p.1 p.2) base

/-- The `excluded_keys` set built by `normalize_entry`:
`{"eventProperties"}`, plus `"rawEventProperties"` when the drop flag is set. -/
def excludedKeys (drop_raw_event_properties_field : Bool) : List String :=
  if drop_raw_event_properties_field then ["eventProperties", "rawEventProperties"]
  else ["eventProperties"]

/-- The base copy `{k: v for k, v in entry.items() if k not in excluded_keys}`. -/
def baseFields (entry : List (String × Json))
    (drop_raw_event_properties_field : Bool) : List (String × Json) :=
  entry.filter (fun p => !((excludedKeys drop_raw_event_properties_field).contains p.1))

/-- The value of `entry.get("eventProperties") or {}`: the stored value when
it is truthy, otherwise the empty dict (also when the key is absent). -/
def wrapperValue (entry : List (String × Json)) : Json :=
  match dictGet entry "eventProperties" with
  | some v => if v.truthy then v else Json.obj []
  | none => Json.obj []

/-- `normalize_entry` from `PowerBI-unflatten.py` (lines 24-59).
`none` models an uncaught exception: `event_props.items()` raises
`AttributeError` when `event_props` is a truthy non-dict, and
`{"severity": severity, **(payload or {})}` raises `TypeError` when the
payload is a truthy non-dict. -/
def normalize_entry (entry : List (String × Json))
    (keep_raw_event_properties drop_raw_event_properties_field : Bool) :
    Option (List (String × Json)) :=
  match wrapperValue entry with
  | Json.obj [] =>
    -- empty bucket dict: severity is None, no event block
    some (baseFields entry drop_raw_event_properties_field)
  | Json.obj ((sev, payload) :: rest) =>
    if sev = "" then
      -- `if severity:` fails on the empty string: no event block
      some (baseFields entry drop_raw_event_properties_field)
    else
      match (if payload.truthy then payload else Json.obj []) with
      | Json.obj ps =>
        let withEvent :=
          dictSet (baseFields entry drop_raw_event_properties_field) "event"
            (Json.obj (dictInsertAll [("severity", Json.str sev)] ps))
        some (if keep_raw_event_properties then
                dictSet withEvent "rawEventProperties" (Json.obj ((sev, payload) :: rest))
              else withEvent)
      | _ => none
  | _ => none

/-- The per-element operation of `transform_document`'s list comprehension:
normalize dict entries, pass every other element through unchanged. -/
def normEntryJson (keep_raw drop_raw : Bool) (e : Json) : Option Json :=
  match e with
  | Json.obj fs => (normalize_entry fs keep_raw drop_raw).map Json.obj
  | _ => some e

/-- The list comprehension of `transform_document`, propagating an exception
raised by any `normalize_entry` call. -/
def mapEntries (keep_raw drop_raw : Bool) : List Json → Option (List Json)
  | [] => some []
  | e :: rest =>
    match normEntryJson keep_raw drop_raw e, mapEntries keep_raw drop_raw rest with
    | some t, some ts => some (t :: ts)
    | _, _ => none

/-- `transform_document` from `PowerBI-unflatten.py` (lines 62-92): pass
non-dict documents and documents without a list `entries` field through
unchanged; otherwise rebuild the document as `{"entries": transformed}`. -/
def transform_document (document : Json) (keep_raw drop_raw : Bool) : Option Json :=
  match document with
  | Json.obj fields =>
    match dictGet fields "entries" with
    | some (Json.arr es) =>
      (mapEntries keep_raw drop_raw es).map
        (fun ts => Json.obj [("entries", Json.arr ts)])
    | _ => some document
  | _ => some document

/-- The parity check of `main` in `PowerBI-unflatten.py` (lines 202-210):
`true` exactly when the `AssertionError` would be raised for a dict input
with a list `entries` field. -/
def parityCheckFails (raw transformed : Json) : Bool :=
  match raw with
  | Json.obj f =>
    match dictGet f "entries" with
    | some (Json.arr es) =>
      match transformed with
      | Json.obj tf =>
        match dictGet tf "entries" with
        | some (Json.arr ts) => ts.length != es.length
        | _ => true
      | _ => true
    | _ => false
  | _ => false

/-- The per-element loop of `extract_entries`: keep dict elements, and for a
non-dict element abort (strict) or skip it (lenient). -/
def filterEntryItems (strict : Bool) : List Json → Option (List Json)
  | [] => some []
  | Json.obj fs :: rest => (filterEntryItems strict rest).map (Json.obj fs :: ·)
  | _ :: rest => if strict then none else filterEntryItems strict rest

/-- `extract_entries` from `PowerBI-merge-converted.py` (lines 28-67), with
the file path (used only in messages) elided.  `none` models the
`ValueError` raised in strict mode; in lenient mode a rejected document
contributes no entries. -/
def extract_entries (doc : Json) (strict : Bool) : Option (List Json) :=
  match doc with
  | Json.obj fields =>
    match dictGet fields "entries" with
    | some (Json.arr es) => filterEntryItems strict es
    | some _ => if strict then none else some []
    | none => if strict then none else some []
  | _ => if strict then none else some []

/-- The accumulation loop of `merge_entries`: concatenate the extracted
entries of the parsed documents in order, propagating a strict-mode abort. -/
def mergeLists (strict : Bool) : List Json → Option (List Json)
  | [] => some []
  | d :: rest =>
    match extract_entries d strict, mergeLists strict rest with
    | some es, some ms => some (es ++ ms)
    | _, _ => none

/-- `merge_entries` from `PowerBI-merge-converted.py` (lines 70-86), taken
over the already-parsed documents in their deterministic (sorted) processing
order; file globbing and JSON parsing are the collaborators' concern. -/
def merge_entries (docs : List Json) (strict : Bool) : Option Json :=
  (mergeLists strict docs).map (fun ms => Json.obj [("entries", Json.arr ms)])

/-! ### Association-list lemmas -/

theorem dictGet_eq_none_iff (d : List (String × Json)) (k : String) :
    dictGet d k = none ↔ ∀ p ∈ d, p.1 ≠ k := by
  induction d with
  | nil => simp [dictGet]
  | cons q rest ih =>
    obtain ⟨k₁, v₁⟩ := q
    by_cases h : k₁ = k <;> simp [dictGet, h, ih]

theorem dictGet_dictSet_self (d : List (String × Json)) (k : String) (v : Json) :
    dictGet (dictSet d k v) k = some v := by
  induction d with
  | nil => simp [dictSet, dictGet]
  | cons q rest ih =>
    obtain ⟨k₁, v₁⟩ := q
    by_cases h : k₁ = k <;> simp [dictSet, dictGet, h, ih]

theorem dictGet_dictSet_ne (d : List (String × Json)) (k k₂ : String) (v : Json)
    (h : k ≠ k₂) : dictGet (dictSet d k₂ v) k = dictGet d k := by
  induction d with
  | nil => simp [dictSet, dictGet, h.symm]
  | cons q rest ih =>
    obtain ⟨k₁, v₁⟩ := q
    by_cases h₁ : k₁ = k₂ <;> by_cases h₂ : k₁ = k <;>
      simp_all [dictSet, dictGet]

theorem dictSet_eq_append (d : List (String × Json)) (k : String) (v : Json)
    (h : dictGet d k = none) : dictSet d k v = d ++ [(k, v)] := by
  induction d with
  | nil => rfl
  | cons q rest ih =>
    obtain ⟨k₁, v₁⟩ := q
    have h₁ : ¬ k₁ = k := by
      intro e
      simp [dictGet, e] at h
    have h₂ : dictGet rest k = none := by
      simpa [dictGet, h₁] using h
    simp [dictSet, h₁, ih h₂]

theorem dictGet_append_of_none (a b : List (String × Json)) (k : String)
    (h : dictGet a k = none) : dictGet (a ++ b) k = dictGet b k := by
  induction a with
  | nil => rfl
  | cons q rest ih =>
    obtain ⟨k₁, v₁⟩ := q
    have h₁ : ¬ k₁ = k := by
      intro e
      simp [dictGet, e] at h
    have h₂ : dictGet rest k = none := by
      simpa [dictGet, h₁] using h
    simp [dictGet, h₁, ih h₂]

theorem dictGet_filter_of_none (d : List (String × Json))
    (p : String × Json → Bool) (k : String) (h : dictGet d k = none) :
    dictGet (d.filter p) k = none := by
  rw [dictGet_eq_none_iff] at h ⊢
  intro q hq
  exact h q (List.mem_of_mem_filter hq)

theorem dictInsertAll_nil (base : List (String × Json)) :
    dictInsertAll base [] = base := rfl

theorem dictInsertAll_cons (base : List (String × Json)) (k : String) (v : Json)
    (rest : List (String × Json)) :
    dictInsertAll base ((k, v) :: rest) = dictInsertAll (dictSet base k v) rest := rfl

theorem dictGet_dictInsertAll_of_none (ps : List (String × Json))
    (base : List (String × Json)) (k : String) (h : dictGet ps k = none) :
    dictGet (dictInsertAll base ps) k = dictGet base k := by
  induction ps generalizing base with
  | nil => rfl
  | cons q rest ih =>
    obtain ⟨k₁, v₁⟩ := q
    have h₁ : ¬ k₁ = k := by
      intro e
      simp [dictGet, e] at h
    have h₂ : dictGet rest k = none := by
      simpa [dictGet, h₁] using h
    rw [dictInsertAll_cons, ih _ h₂, dictGet_dictSet_ne]
    exact fun e => h₁ e.symm

theorem dictGet_dictInsertAll_of_some (ps base : List (String × Json))
    (k : String) (v : Json) (hnd : (ps.map Prod.fst).Nodup)
    (h : dictGet ps k = some v) :
    dictGet (dictInsertAll base ps) k = some v := by
  induction ps generalizing base with
  | nil => simp [dictGet] at h
  | cons q rest ih =>
    obtain ⟨k₁, v₁⟩ := q
    simp only [List.map_cons, List.nodup_cons] at hnd
    by_cases e : k₁ = k
    · subst e
      have hv : v₁ = v := by simpa [dictGet] using h
      subst hv
      have hrest : dictGet rest k₁ = none := by
        rw [dictGet_eq_none_iff]
        intro q hq hq1
        exact hnd.1 (hq1 ▸ List.mem_map_of_mem Prod.fst hq)
      rw [dictInsertAll_cons, dictGet_dictInsertAll_of_none _ _ _ hrest,
        dictGet_dictSet_self]
    · have h₂ : dictGet rest k = some v := by simpa [dictGet, e] using h
      rw [dictInsertAll_cons]
      exact ih _ hnd.2 h₂

theorem dictInsertAll_eq_append (base ps : List (String × Json))
    (hnd : (ps.map Prod.fst).Nodup)
    (hdisj : ∀ p ∈ ps, dictGet base p.1 = none) :
    dictInsertAll base ps = base ++ ps := by
  induction ps generalizing base with
  | nil => simp [dictInsertAll]
  | cons q rest ih =>
    obtain ⟨k, v⟩ := q
    simp only [List.map_cons, List.nodup_cons] at hnd
    rw [dictInsertAll_cons, dictSet_eq_append _ _ _ (hdisj (k, v) (List.mem_cons_self _ _))]
    rw [ih (base ++ [(k, v)]) hnd.2]
    · simp
    · intro p hp
      rw [dictGet_append_of_none _ _ _ (hdisj p (List.mem_cons_of_mem _ hp))]
      have hne : ¬ k = p.1 := by
        intro e
        exact hnd.1 (e ▸ List.mem_map_of_mem Prod.fst hp)
      simp [dictGet, hne]

/-! ### Lemmas about the base copy and the wrapper value -/

theorem dictGet_baseFields_excluded (E : List (String × Json)) (dr : Bool)
    (k : String) (hk : (excludedKeys dr).contains k = true) :
    dictGet (baseFields E dr) k = none := by
  rw [dictGet_eq_none_iff]
  intro p hp
  rw [baseFields, List.mem_filter] at hp
  intro e
  have h2 := hp.2
  rw [e, hk] at h2
  simp at h2

theorem baseFields_false_of_no_wrapper (E : List (String × Json))
    (h : dictGet E "eventProperties" = none) : baseFields E false = E := by
  rw [baseFields, List.filter_eq_self]
  intro a ha
  have hne := (dictGet_eq_none_iff E "eventProperties").mp h a ha
  simp [excludedKeys, hne]

theorem baseFields_true_of_no_wrapper (E : List (String × Json))
    (h : dictGet E "eventProperties" = none) :
    baseFields E true = E.filter (fun p => p.1 != "rawEventProperties") := by
  rw [baseFields]
  apply List.filter_congr
  intro a ha
  have hne := (dictGet_eq_none_iff E "eventProperties").mp h a ha
  simp [excludedKeys, hne, bne, beq_eq_decide]

theorem filter_raw_eq_of_no_raw (E : List (String × Json))
    (h : dictGet E "rawEventProperties" = none) :
    E.filter (fun p => p.1 != "rawEventProperties") = E := by
  rw [List.filter_eq_self]
  intro a ha
  have hne := (dictGet_eq_none_iff E "rawEventProperties").mp h a ha
  simp [hne]

theorem wrapperValue_of_none (E : List (String × Json))
    (h : dictGet E "eventProperties" = none) : wrapperValue E = Json.obj [] := by
  rw [wrapperValue, h]

theorem wrapperValue_of_some_falsy (E : List (String × Json)) (v : Json)
    (h : dictGet E "eventProperties" = some v) (ht : v.truthy = false) :
    wrapperValue E = Json.obj [] := by
  rw [wrapperValue, h]
  simp [ht]

theorem wrapperValue_of_some_truthy (E : List (String × Json)) (v : Json)
    (h : dictGet E "eventProperties" = some v) (ht : v.truthy = true) :
    wrapperValue E = v := by
  rw [wrapperValue, h]
  simp [ht]

/-! ### Branch lemmas for `normalize_entry` -/

theorem normalize_entry_of_wrapper_empty (E : List (String × Json)) (kr dr : Bool)
    (h : wrapperValue E = Json.obj []) :
    normalize_entry E kr dr = some (baseFields E dr) := by
  simp [normalize_entry, h]

theorem normalize_entry_of_sev_empty (E : List (String × Json)) (kr dr : Bool)
    (payload : Json) (rest : List (String × Json))
    (h : wrapperValue E = Json.obj (("", payload) :: rest)) :
    normalize_entry E kr dr = some (baseFields E dr) := by
  simp [normalize_entry, h]

theorem normalize_entry_of_sev (E : List (String × Json)) (kr dr : Bool)
    (sev : String) (payload : Json) (rest ps : List (String × Json))
    (h : wrapperValue E = Json.obj ((sev, payload) :: rest))
    (hsev : sev ≠ "")
    (hp : (if payload.truthy then payload else Json.obj []) = Json.obj ps) :
    normalize_entry E kr dr = some (
      if kr then
        dictSet
          (dictSet (baseFields E dr) "event"
            (Json.obj (dictInsertAll [("severity", Json.str sev)] ps)))
          "rawEventProperties" (Json.obj ((sev, payload) :: rest))
      else
        dictSet (baseFields E dr) "event"
          (Json.obj (dictInsertAll [("severity", Json.str sev)] ps))) := by
  simp [normalize_entry, h, hsev, hp]

theorem normalize_entry_of_wrapper_nonobj (E : List (String × Json)) (kr dr : Bool)
    (h : (wrapperValue E).isObj = false) : normalize_entry E kr dr = none := by
  cases hw : wrapperValue E with
  | null => simp [normalize_entry, hw]
  | bool b => simp [normalize_entry, hw]
  | num n => simp [normalize_entry, hw]
  | str s => simp [normalize_entry, hw]
  | arr xs => simp [normalize_entry, hw]
  | obj fs =>
    rw [hw] at h
    simp [Json.isObj] at h

theorem normalize_entry_of_payload_nonobj (E : List (String × Json)) (kr dr : Bool)
    (sev : String) (payload : Json) (rest : List (String × Json))
    (h : wrapperValue E = Json.obj ((sev, payload) :: rest))
    (hsev : sev ≠ "")
    (ht : payload.truthy = true)
    (hobj : payload.isObj = false) :
    normalize_entry E kr dr = none := by
  cases payload with
  | obj ps => simp [Json.isObj] at hobj
  | null => simp [Json.truthy] at ht
  | bool b => simp [normalize_entry, h, hsev, ht]
  | num n => simp [normalize_entry, h, hsev, ht]
  | str s => simp [normalize_entry, h, hsev, ht]
  | arr xs => simp [normalize_entry, h, hsev, ht]

/-! ### Lemmas for the document transform and the merger -/

theorem mapEntries_length (kr dr : Bool) (es ts : List Json)
    (h : mapEntries kr dr es = some ts) : ts.length = es.length := by
  induction es generalizing ts with
  | nil =>
    simp [mapEntries] at h
    simp [← h]
  | cons e rest ih =>
    rw [mapEntries] at h
    cases h₁ : normEntryJson kr dr e with
    | none => rw [h₁] at h; simp at h
    | some t =>
      cases h₂ : mapEntries kr dr rest with
      | none => rw [h₁, h₂] at h; simp at h
      | some ts₁ =>
        rw [h₁, h₂] at h
        simp at h
        rw [← h]
        simp [ih ts₁ h₂]

theorem mapEntries_get (kr dr : Bool) (es ts : List Json)
    (h : mapEntries kr dr es = some ts) :
    ∀ i (h1 : i < es.length) (h2 : i < ts.length),
      normEntryJson kr dr (es.get ⟨i, h1⟩) = some (ts.get ⟨i, h2⟩) := by
  induction es generalizing ts with
  | nil => intro i h1 h2; simp at h1
  | cons e rest ih =>
    rw [mapEntries] at h
    cases h₁ : normEntryJson kr dr e with
    | none => rw [h₁] at h; simp at h
    | some t =>
      cases h₂ : mapEntries kr dr rest with
      | none => rw [h₁, h₂] at h; simp at h
      | some ts₁ =>
        rw [h₁, h₂] at h
        simp at h
        subst h
        intro i h1 h2
        cases i with
        | zero => simpa using h₁
        | succ j => exact ih ts₁ h₂ j (by simpa using h1) (by simpa using h2)

theorem filterEntryItems_false (es : List Json) :
    filterEntryItems false es = some (es.filter Json.isObj) := by
  induction es with
  | nil => rfl
  | cons e rest ih =>
    cases e <;> simp [filterEntryItems, Json.isObj, ih]

theorem filterEntryItems_true_all (es : List Json) (h : es.all Json.isObj = true) :
    filterEntryItems true es = some es := by
  induction es with
  | nil => rfl
  | cons e rest ih =>
    simp only [List.all_cons, Bool.and_eq_true] at h
    cases e with
    | obj fs => simp [filterEntryItems, ih h.2]
    | null => simp [Json.isObj] at h
    | bool b => simp [Json.isObj] at h
    | num n => simp [Json.isObj] at h
    | str s => simp [Json.isObj] at h
    | arr xs => simp [Json.isObj] at h

theorem filterEntryItems_true_not_all (es : List Json) (h : es.all Json.isObj = false) :
    filterEntryItems true es = none := by
  induction es with
  | nil => simp [List.all_nil] at h
  | cons e rest ih =>
    cases e with
    | obj fs =>
      simp only [List.all_cons, Json.isObj, Bool.true_and] at h
      simp [filterEntryItems, ih h]
    | null => simp [filterEntryItems]
    | bool b => simp [filterEntryItems]
    | num n => simp [filterEntryItems]
    | str s => simp [filterEntryItems]
    | arr xs => simp [filterEntryItems]

/-! ### Claims about `normalize_entry` -/

/-- Claim C6: for every entry lacking the wrapper field "eventProperties",
`normalize_entry` returns the entry's fields unchanged except that the legacy
"rawEventProperties" field is removed when keepWrapper is false
(keep_raw=false, drop=true) and retained when keepWrapper is true
(keep_raw=true, drop=false); normalizing an already-normalized entry
(neither field present) is a no-op. -/
theorem claim_C6 (E : List (String × Json))
    (h : dictGet E "eventProperties" = none) :
    normalize_entry E true false = some E ∧
    normalize_entry E false true =
      some (E.filter (fun p => p.1 != "rawEventProperties")) ∧
    (dictGet E "rawEventProperties" = none →
      normalize_entry E false true = some E) := by
  have hw := wrapperValue_of_none E h
  refine ⟨?_, ?_, ?_⟩
  · rw [normalize_entry_of_wrapper_empty E true false hw,
      baseFields_false_of_no_wrapper E h]
  · rw [normalize_entry_of_wrapper_empty E false true hw,
      baseFields_true_of_no_wrapper E h]
  · intro hraw
    rw [normalize_entry_of_wrapper_empty E false true hw,
      baseFields_true_of_no_wrapper E h, filter_raw_eq_of_no_raw E hraw]

/-- Witness for claim C6 at a concrete wrapper-free entry. -/
theorem claim_C6_witness :
    normalize_entry [("id", Json.num 2), ("rawEventProperties", Json.null)] true false =
      some [("id", Json.num 2), ("rawEventProperties", Json.null)] ∧
    normalize_entry [("id", Json.num 2), ("rawEventProperties", Json.null)] false true =
      some [("id", Json.num 2)] ∧
    normalize_entry [("id", Json.num 2)] false true = some [("id", Json.num 2)] := by
  have h := claim_C6 [("id", Json.num 2), ("rawEventProperties", Json.null)] rfl
  have h2 := claim_C6 [("id", Json.num 2)] rfl
  exact ⟨h.1, by rw [h.2.1]; rfl, h2.2.2 rfl⟩

/-- Claim C9: when the wrapper's first key in iteration order is the empty
string, `normalize_entry` returns the plain base copy: the wrapper is removed
but no "event" block and no "rawEventProperties" field is produced, even
though the bucket set is non-empty (the selected severity is tested for
truthiness, not presence). -/
theorem claim_C9 (E : List (String × Json)) (v : Json)
    (rest : List (String × Json)) (kr dr : Bool)
    (h : dictGet E "eventProperties" = some (Json.obj (("", v) :: rest))) :
    normalize_entry E kr dr = some (baseFields E dr) ∧
    dictGet (baseFields E dr) "eventProperties" = none ∧
    (dictGet E "event" = none → dictGet (baseFields E dr) "event" = none) ∧
    (dr = true → dictGet (baseFields E dr) "rawEventProperties" = none) := by
  have hw : wrapperValue E = Json.obj (("", v) :: rest) :=
    wrapperValue_of_some_truthy E _ h (by simp [Json.truthy])
  refine ⟨normalize_entry_of_sev_empty E kr dr v rest hw, ?_, ?_, ?_⟩
  · exact dictGet_baseFields_excluded E dr _ (by cases dr <;> simp [excludedKeys])
  · intro he
    rw [baseFields]
    exact dictGet_filter_of_none E _ "event" he
  · intro hdr
    subst hdr
    exact dictGet_baseFields_excluded E true _ (by simp [excludedKeys])

/-- Witness for claim C9 at a concrete entry with an empty-string bucket key. -/
theorem claim_C9_witness :
    normalize_entry
      [("x", Json.num 7), ("eventProperties", Json.obj [("", Json.obj [])])]
      false true = some [("x", Json.num 7)] := by
  have h := (claim_C9
    [("x", Json.num 7), ("eventProperties", Json.obj [("", Json.obj [])])]
    (Json.obj []) [] false true rfl).1
  rw [h]
  rfl

/-- Claim C10: a truthy (non-empty-string) first bucket key with a null or
empty-object payload normalizes without error, and the produced "event"
field is exactly the object mapping "severity" to that key, with no payload
fields. -/
theorem claim_C10 (E : List (String × Json)) (B : String) (p : Json)
    (rest : List (String × Json)) (kr dr : Bool)
    (hE : dictGet E "eventProperties" = some (Json.obj ((B, p) :: rest)))
    (hB : B ≠ "")
    (hp : p = Json.null ∨ p = Json.obj []) :
    ∃ n, normalize_entry E kr dr = some n ∧
      dictGet n "event" = some (Json.obj [("severity", Json.str B)]) := by
  have hw : wrapperValue E = Json.obj ((B, p) :: rest) :=
    wrapperValue_of_some_truthy E _ hE (by simp [Json.truthy])
  have hpe : (if p.truthy then p else Json.obj []) = Json.obj [] := by
    rcases hp with h | h <;> subst h <;> simp [Json.truthy]
  have hne := normalize_entry_of_sev E kr dr B p rest [] hw hB hpe
  refine ⟨_, hne, ?_⟩
  have hev : dictInsertAll [("severity", Json.str B)] [] = [("severity", Json.str B)] := rfl
  cases kr with
  | false =>
    simp only [Bool.false_eq_true, if_false, hev]
    exact dictGet_dictSet_self (baseFields E dr) "event" _
  | true =>
    simp only [if_true, hev]
    rw [dictGet_dictSet_ne _ _ _ _ (by decide)]
    exact dictGet_dictSet_self (baseFields E dr) "event" _

/-- Witness for claim C10 at a concrete entry with a null payload. -/
theorem claim_C10_witness :
    ∃ n, normalize_entry
      [("id", Json.num 4), ("eventProperties", Json.obj [("Red", Json.null)])]
      false true = some n ∧
      dictGet n "event" = some (Json.obj [("severity", Json.str "Red")]) :=
  claim_C10 [("id", Json.num 4), ("eventProperties", Json.obj [("Red", Json.null)])]
    "Red" Json.null [] false true rfl (by decide) (Or.inl rfl)

/-- Claim C8: when the selected bucket's payload itself contains a key
literally named "severity", the produced "event" field maps "severity" to
the payload's value (the tag is written first and the payload's keys are
applied afterwards, overwriting it). -/
theorem claim_C8 (E ps rest : List (String × Json)) (B : String) (v : Json)
    (kr dr : Bool)
    (hE : dictGet E "eventProperties" = some (Json.obj ((B, Json.obj ps) :: rest)))
    (hB : B ≠ "")
    (hnd : (ps.map Prod.fst).Nodup)
    (hv : dictGet ps "severity" = some v) :
    ∃ n ev, normalize_entry E kr dr = some n ∧
      dictGet n "event" = some (Json.obj ev) ∧
      dictGet ev "severity" = some v := by
  have hw : wrapperValue E = Json.obj ((B, Json.obj ps) :: rest) :=
    wrapperValue_of_some_truthy E _ hE (by simp [Json.truthy])
  have hps : (Json.obj ps).truthy = true := by
    cases ps with
    | nil => simp [dictGet] at hv
    | cons q r => simp [Json.truthy]
  have hpe : (if (Json.obj ps).truthy then Json.obj ps else Json.obj []) = Json.obj ps := by
    simp [hps]
  have hne := normalize_entry_of_sev E kr dr B (Json.obj ps) rest ps hw hB hpe
  refine ⟨_, dictInsertAll [("severity", Json.str B)] ps, hne, ?_, ?_⟩
  · cases kr with
    | false =>
      simp only [Bool.false_eq_true, if_false]
      exact dictGet_dictSet_self (baseFields E dr) "event" _
    | true =>
      simp only [if_true]
      rw [dictGet_dictSet_ne _ _ _ _ (by decide)]
      exact dictGet_dictSet_self (baseFields E dr) "event" _
  · exact dictGet_dictInsertAll_of_some ps _ "severity" v hnd hv

/-- Witness for claim C8: the tag "Red" is overwritten by the payload's own
"severity" value. -/
theorem claim_C8_witness :
    ∃ n ev, normalize_entry
      [("eventProperties", Json.obj [("Red",
        Json.obj [("severity", Json.str "custom")])])] false true = some n ∧
      dictGet n "event" = some (Json.obj ev) ∧
      dictGet ev "severity" = some (Json.str "custom") :=
  claim_C8 [("eventProperties", Json.obj [("Red",
      Json.obj [("severity", Json.str "custom")])])]
    [("severity", Json.str "custom")] [] "Red" (Json.str "custom") false true
    rfl (by decide) (by simp) rfl

/-- Counterexample to claim C3 as stated: an entry whose "eventProperties"
value is the truthy non-object string "x" makes `normalize_entry` raise
(`AttributeError` on `event_props.items()`), modelled as `none`. -/
theorem claim_C3_counterexample :
    normalize_entry [("eventProperties", Json.str "x")] false true = none := rfl

/-- Claim C3 (amended): `normalize_entry` returns normally, producing the
plain base copy and no event block, whenever the "eventProperties" field is
absent or falsy (null, false, 0, "", empty array, empty object) -- these are
treated as an empty bucket set; but when the field holds a truthy non-object
value (e.g. a non-empty string, a non-zero number, true, or a non-empty
array) the function raises instead of returning. -/
theorem claim_C3_amended (E : List (String × Json)) (kr dr : Bool) :
    (dictGet E "eventProperties" = none →
      normalize_entry E kr dr = some (baseFields E dr)) ∧
    (∀ v, dictGet E "eventProperties" = some v → v.truthy = false →
      normalize_entry E kr dr = some (baseFields E dr)) ∧
    (∀ v, dictGet E "eventProperties" = some v → v.truthy = true →
      v.isObj = false → normalize_entry E kr dr = none) := by
  refine ⟨?_, ?_, ?_⟩
  · intro h
    exact normalize_entry_of_wrapper_empty E kr dr (wrapperValue_of_none E h)
  · intro v h ht
    exact normalize_entry_of_wrapper_empty E kr dr (wrapperValue_of_some_falsy E v h ht)
  · intro v h ht hobj
    apply normalize_entry_of_wrapper_nonobj
    rw [wrapperValue_of_some_truthy E v h ht]
    exact hobj

/-- Witness for claim C3 (amended): a null wrapper degrades to no event
block; a truthy non-object wrapper raises. -/
theorem claim_C3_witness :
    normalize_entry [("id", Json.num 3), ("eventProperties", Json.null)] false true =
      some [("id", Json.num 3)] ∧
    normalize_entry [("eventProperties", Json.arr [Json.num 1])] false true = none := by
  have h := claim_C3_amended [("id", Json.num 3), ("eventProperties", Json.null)] false true
  have h2 := claim_C3_amended [("eventProperties", Json.arr [Json.num 1])] false true
  exact ⟨by rw [h.2.1 Json.null rfl rfl]; rfl, h2.2.2 (Json.arr [Json.num 1]) rfl rfl rfl⟩

/-- Counterexample to claim C1 as stated: (1) a single bucket whose key is
the empty string yields an entry with no "event" field at all; (2) an entry
that already carries an "event" field does not keep that field's original
value -- it is overwritten by the new event block. -/
theorem claim_C1_counterexample :
    (normalize_entry
        [("eventProperties", Json.obj [("", Json.obj [("k", Json.str "v")])])]
        false true = some [] ∧
      dictGet [] "event" = none) ∧
    normalize_entry
        [("event", Json.bool true),
         ("eventProperties", Json.obj [("Green", Json.obj [])])] false true
      = some [("event", Json.obj [("severity", Json.str "Green")])] :=
  ⟨⟨rfl, rfl⟩, rfl⟩

/-- Claim C1 (amended): for an entry whose "eventProperties" field is an
object with a single bucket `(B, payload)` where `B` is a non-empty string,
the payload is an object whose keys are distinct and do not include
"severity", and the entry has no pre-existing "event" field,
`normalize_entry` with keep_raw=false and drop=true returns the entry's
other fields (wrapper and legacy raw field removed) followed by a new
"event" field equal to `{"severity": B}` merged with the payload's fields;
the result has no "eventProperties" and no "rawEventProperties" field. -/
theorem claim_C1_amended (E ps : List (String × Json)) (B : String)
    (hE : dictGet E "eventProperties" = some (Json.obj [(B, Json.obj ps)]))
    (hB : B ≠ "")
    (hev : dictGet E "event" = none)
    (hnd : (ps.map Prod.fst).Nodup)
    (hsv : dictGet ps "severity" = none) :
    normalize_entry E false true =
      some (baseFields E true ++
        [("event", Json.obj (("severity", Json.str B) :: ps))]) ∧
    dictGet (baseFields E true ++
        [("event", Json.obj (("severity", Json.str B) :: ps))])
      "eventProperties" = none ∧
    dictGet (baseFields E true ++
        [("event", Json.obj (("severity", Json.str B) :: ps))])
      "rawEventProperties" = none := by
  have hw : wrapperValue E = Json.obj [(B, Json.obj ps)] :=
    wrapperValue_of_some_truthy E _ hE (by simp [Json.truthy])
  have hpe : (if (Json.obj ps).truthy then Json.obj ps else Json.obj []) = Json.obj ps := by
    cases ps with
    | nil => simp [Json.truthy]
    | cons q r => simp [Json.truthy]
  have hne := normalize_entry_of_sev E false true B (Json.obj ps) [] ps hw hB hpe
  have hins : dictInsertAll [("severity", Json.str B)] ps =
      [("severity", Json.str B)] ++ ps := by
    apply dictInsertAll_eq_append _ _ hnd
    intro p hp
    have hne2 := (dictGet_eq_none_iff ps "severity").mp hsv p hp
    have hne3 : ¬ "severity" = p.1 := fun e => hne2 e.symm
    simp [dictGet, hne3]
  have hbase : dictGet (baseFields E true) "event" = none := by
    rw [baseFields]
    exact dictGet_filter_of_none E _ "event" hev
  refine ⟨?_, ?_, ?_⟩
  · rw [hne, if_neg (by simp), hins,
      dictSet_eq_append (baseFields E true) "event" _ hbase]
    rfl
  · rw [dictGet_append_of_none _ _ _
      (dictGet_baseFields_excluded E true _ (by simp [excludedKeys]))]
    simp [dictGet]
  · rw [dictGet_append_of_none _ _ _
      (dictGet_baseFields_excluded E true _ (by simp [excludedKeys]))]
    simp [dictGet]

/-- Witness for claim C1 (amended), the spec's own example entry. -/
theorem claim_C1_witness :
    normalize_entry
      [("id", Json.num 1),
       ("eventProperties", Json.obj [("Green",
         Json.obj [("DateTime", Json.str "2024-01-01"), ("Note", Json.str "ok")])])]
      false true =
    some [("id", Json.num 1),
          ("event", Json.obj [("severity", Json.str "Green"),
            ("DateTime", Json.str "2024-01-01"), ("Note", Json.str "ok")])] := by
  have h := (claim_C1_amended
    [("id", Json.num 1),
     ("eventProperties", Json.obj [("Green",
       Json.obj [("DateTime", Json.str "2024-01-01"), ("Note", Json.str "ok")])])]
    [("DateTime", Json.str "2024-01-01"), ("Note", Json.str "ok")] "Green"
    rfl (by decide) rfl (by simp) rfl).1
  rw [h]
  rfl

/-! ### Claims about `transform_document` -/

/-- Counterexample to claim C2 as stated: a document whose single entry has
the truthy non-object wrapper value "x" makes `transform_document` raise
(propagating `normalize_entry`'s `AttributeError`) instead of returning a
document with the same entry count. -/
theorem claim_C2_counterexample :
    transform_document
      (Json.obj [("entries", Json.arr [Json.obj [("eventProperties", Json.str "x")]])])
      false true = none := rfl

/-- Claim C2 (amended): whenever `transform_document` returns a value (that
is, no entry's normalization raises), a document with a list-valued
"entries" field is mapped to a document whose "entries" list has exactly
the same length, and the parity-check assertion in `main` is not triggered. -/
theorem claim_C2_amended (D out : Json) (kr dr : Bool)
    (h : transform_document D kr dr = some out) :
    parityCheckFails D out = false ∧
    ∀ fields es, D = Json.obj fields →
      dictGet fields "entries" = some (Json.arr es) →
      ∃ ts, out = Json.obj [("entries", Json.arr ts)] ∧ ts.length = es.length := by
  by_cases hmain : ∃ fields es, D = Json.obj fields ∧
      dictGet fields "entries" = some (Json.arr es)
  · obtain ⟨fields, es, rfl, hge⟩ := hmain
    simp only [transform_document, hge] at h
    obtain ⟨ts, hts, hout⟩ := Option.map_eq_some'.mp h
    subst hout
    have hlen := mapEntries_length kr dr es ts hts
    refine ⟨?_, ?_⟩
    · simp [parityCheckFails, hge, dictGet, hlen]
    · intro fields₁ es₁ hDf hgf
      injection hDf with hf
      subst hf
      rw [hge] at hgf
      injection hgf with h1
      injection h1 with h2
      subst h2
      exact ⟨ts, rfl, hlen⟩
  · have hpass : transform_document D kr dr = some D := by
      cases D with
      | obj fields =>
        cases hge : dictGet fields "entries" with
        | none => simp [transform_document, hge]
        | some v =>
          cases v with
          | arr es => exact absurd ⟨fields, es, rfl, hge⟩ hmain
          | null => simp [transform_document, hge]
          | bool b => simp [transform_document, hge]
          | num n => simp [transform_document, hge]
          | str s => simp [transform_document, hge]
          | obj fs => simp [transform_document, hge]
      | null => rfl
      | bool b => rfl
      | num n => rfl
      | str s => rfl
      | arr xs => rfl
    rw [hpass] at h
    injection h with h1
    subst h1
    refine ⟨?_, ?_⟩
    · cases D with
      | obj fields =>
        cases hge : dictGet fields "entries" with
        | none => simp [parityCheckFails, hge]
        | some v =>
          cases v with
          | arr es => exact absurd ⟨fields, es, rfl, hge⟩ hmain
          | null => simp [parityCheckFails, hge]
          | bool b => simp [parityCheckFails, hge]
          | num n => simp [parityCheckFails, hge]
          | str s => simp [parityCheckFails, hge]
          | obj fs => simp [parityCheckFails, hge]
      | null => rfl
      | bool b => rfl
      | num n => rfl
      | str s => rfl
      | arr xs => rfl
    · intro fields es hDf hgf
      exact absurd ⟨fields, es, hDf, hgf⟩ hmain

/-- Witness for claim C2 (amended) at a concrete one-entry document. -/
theorem claim_C2_witness :
    parityCheckFails (Json.obj [("entries", Json.arr [Json.obj [("id", Json.num 1)]])])
      (Json.obj [("entries", Json.arr [Json.obj [("id", Json.num 1)]])]) = false ∧
    ∃ ts, Json.obj [("entries", Json.arr [Json.obj [("id", Json.num 1)]])] =
        Json.obj [("entries", Json.arr ts)] ∧
      ts.length = [Json.obj [("id", Json.num 1)]].length := by
  have h := claim_C2_amended
    (Json.obj [("entries", Json.arr [Json.obj [("id", Json.num 1)]])])
    (Json.obj [("entries", Json.arr [Json.obj [("id", Json.num 1)]])]) false true rfl
  exact ⟨h.1, h.2 _ [Json.obj [("id", Json.num 1)]] rfl rfl⟩

/-- Counterexample to claim C5 as stated: a document whose entry holds a
truthy non-object payload in its first bucket makes `transform_document`
raise (propagating `normalize_entry`'s `TypeError` on the payload splat),
so no result document is returned at all. -/
theorem claim_C5_counterexample :
    transform_document
      (Json.obj [("entries", Json.arr
        [Json.obj [("eventProperties", Json.obj [("Red", Json.str "high")])]])])
      false true = none := rfl

/-- Claim C5 (amended): a non-mapping input, or a mapping without a
list-valued "entries" field, is returned unchanged (pass-through, no
error); otherwise, provided every mapping entry normalizes without
raising, the result is a mapping with exactly one field "entries" whose
list has one element per input element -- mapping elements normalized,
non-mapping elements unchanged at their original positions -- and every
other top-level field of the input is dropped. -/
theorem claim_C5_amended (kr dr : Bool) :
    (∀ D : Json, D.isObj = false → transform_document D kr dr = some D) ∧
    (∀ fields, (∀ es, dictGet fields "entries" ≠ some (Json.arr es)) →
      transform_document (Json.obj fields) kr dr = some (Json.obj fields)) ∧
    (∀ fields es out, dictGet fields "entries" = some (Json.arr es) →
      transform_document (Json.obj fields) kr dr = some out →
      ∃ ts, out = Json.obj [("entries", Json.arr ts)] ∧
        ts.length = es.length ∧
        ∀ i (h1 : i < es.length) (h2 : i < ts.length),
          (∀ fs, es.get ⟨i, h1⟩ = Json.obj fs →
            ∃ nf, normalize_entry fs kr dr = some nf ∧
              ts.get ⟨i, h2⟩ = Json.obj nf) ∧
          ((es.get ⟨i, h1⟩).isObj = false → ts.get ⟨i, h2⟩ = es.get ⟨i, h1⟩)) := by
  refine ⟨?_, ?_, ?_⟩
  · intro D hD
    cases D with
    | obj fields => simp [Json.isObj] at hD
    | null => rfl
    | bool b => rfl
    | num n => rfl
    | str s => rfl
    | arr xs => rfl
  · intro fields hne
    cases hge : dictGet fields "entries" with
    | none => simp [transform_document, hge]
    | some v =>
      cases v with
      | arr es => exact absurd hge (hne es)
      | null => simp [transform_document, hge]
      | bool b => simp [transform_document, hge]
      | num n => simp [transform_document, hge]
      | str s => simp [transform_document, hge]
      | obj fs => simp [transform_document, hge]
  · intro fields es out hge h
    simp only [transform_document, hge] at h
    obtain ⟨ts, hts, hout⟩ := Option.map_eq_some'.mp h
    subst hout
    refine ⟨ts, rfl, mapEntries_length kr dr es ts hts, ?_⟩
    intro i h1 h2
    have hpt := mapEntries_get kr dr es ts hts i h1 h2
    constructor
    · intro fs hfs
      rw [hfs] at hpt
      simp only [normEntryJson] at hpt
      obtain ⟨nf, hnf, hnf2⟩ := Option.map_eq_some'.mp hpt
      exact ⟨nf, hnf, hnf2.symm⟩
    · intro hobj
      cases he : es.get ⟨i, h1⟩ with
      | obj fs =>
        rw [he] at hobj
        simp [Json.isObj] at hobj
      | null =>
        rw [he] at hpt
        simp only [normEntryJson] at hpt
        injection hpt with h3
        exact h3.symm
      | bool b =>
        rw [he] at hpt
        simp only [normEntryJson] at hpt
        injection hpt with h3
        exact h3.symm
      | num n =>
        rw [he] at hpt
        simp only [normEntryJson] at hpt
        injection hpt with h3
        exact h3.symm
      | str s =>
        rw [he] at hpt
        simp only [normEntryJson] at hpt
        injection hpt with h3
        exact h3.symm
      | arr xs =>
        rw [he] at hpt
        simp only [normEntryJson] at hpt
        injection hpt with h3
        exact h3.symm

/-- Witness for claim C5 (amended): a number passes through, and a mapping
without an "entries" field passes through. -/
theorem claim_C5_witness :
    transform_document (Json.num 9) false true = some (Json.num 9) ∧
    transform_document (Json.obj [("a", Json.num 1)]) false true =
      some (Json.obj [("a", Json.num 1)]) := by
  have h := claim_C5_amended false true
  refine ⟨h.1 (Json.num 9) rfl, h.2.1 [("a", Json.num 1)] ?_⟩
  intro es he
  simp [dictGet] at he

/-! ### Claims about the merger -/

/-- Claim C4: document-level and element-level strict/lenient policy of
`extract_entries`: a non-mapping document, a document without an "entries"
field, or one whose "entries" field is not a list raises under strict mode
and contributes no entries under lenient mode; within an accepted document,
a non-object element raises under strict mode and is skipped under lenient
mode (object elements are kept in order). -/
theorem claim_C4 (doc : Json) :
    (doc.isObj = false →
      extract_entries doc true = none ∧ extract_entries doc false = some []) ∧
    (∀ fields, doc = Json.obj fields → dictGet fields "entries" = none →
      extract_entries doc true = none ∧ extract_entries doc false = some []) ∧
    (∀ fields v, doc = Json.obj fields → dictGet fields "entries" = some v →
      v.isArr = false →
      extract_entries doc true = none ∧ extract_entries doc false = some []) ∧
    (∀ fields es, doc = Json.obj fields →
      dictGet fields "entries" = some (Json.arr es) →
      extract_entries doc false = some (es.filter Json.isObj) ∧
      (es.all Json.isObj = true → extract_entries doc true = some es) ∧
      (es.all Json.isObj = false → extract_entries doc true = none)) := by
  refine ⟨?_, ?_, ?_, ?_⟩
  · intro hD
    cases doc with
    | obj fields => simp [Json.isObj] at hD
    | null => exact ⟨rfl, rfl⟩
    | bool b => exact ⟨rfl, rfl⟩
    | num n => exact ⟨rfl, rfl⟩
    | str s => exact ⟨rfl, rfl⟩
    | arr xs => exact ⟨rfl, rfl⟩
  · intro fields hD hge
    subst hD
    constructor <;> simp [extract_entries, hge]
  · intro fields v hD hge hv
    subst hD
    cases v with
    | arr es => simp [Json.isArr] at hv
    | null => constructor <;> simp [extract_entries, hge]
    | bool b => constructor <;> simp [extract_entries, hge]
    | num n => constructor <;> simp [extract_entries, hge]
    | str s => constructor <;> simp [extract_entries, hge]
    | obj fs => constructor <;> simp [extract_entries, hge]
  · intro fields es hD hge
    subst hD
    refine ⟨?_, ?_, ?_⟩
    · simp [extract_entries, hge, filterEntryItems_false]
    · intro hall
      simp [extract_entries, hge, filterEntryItems_true_all es hall]
    · intro hall
      simp [extract_entries, hge, filterEntryItems_true_not_all es hall]

/-- Witness for claim C4: a top-level array is rejected (strict aborts,
lenient yields no entries), and inside an accepted document a non-object
element is skipped in lenient mode and aborts in strict mode. -/
theorem claim_C4_witness :
    (extract_entries (Json.arr []) true = none ∧
     extract_entries (Json.arr []) false = some []) ∧
    extract_entries (Json.obj [("entries", Json.arr [Json.obj [], Json.num 5])]) false
      = some ([Json.obj [], Json.num 5].filter Json.isObj) ∧
    extract_entries (Json.obj [("entries", Json.arr [Json.obj [], Json.num 5])]) true
      = none := by
  refine ⟨(claim_C4 (Json.arr [])).1 rfl, ?_, ?_⟩
  · exact ((claim_C4 _).2.2.2 [("entries", Json.arr [Json.obj [], Json.num 5])]
      [Json.obj [], Json.num 5] rfl rfl).1
  · exact (((claim_C4 _).2.2.2 [("entries", Json.arr [Json.obj [], Json.num 5])]
      [Json.obj [], Json.num 5] rfl rfl).2.2) rfl

theorem merge_entries_single (d : Json) (strict : Bool) (es : List Json)
    (h : merge_entries [d] strict = some (Json.obj [("entries", Json.arr es)])) :
    extract_entries d strict = some es := by
  cases hx : extract_entries d strict with
  | none => simp [merge_entries, mergeLists, hx] at h
  | some es₁ =>
    simp [merge_entries, mergeLists, hx] at h
    exact congrArg some h

theorem merge_entries_pair (A B : Json) (strict : Bool) (ea eb : List Json)
    (hA : extract_entries A strict = some ea)
    (hB : extract_entries B strict = some eb) :
    merge_entries [A, B] strict =
      some (Json.obj [("entries", Json.arr (ea ++ eb))]) := by
  simp [merge_entries, mergeLists, hA, hB]

/-- Claim C7: with the documents processed in the same deterministic order,
the entries of `merge([A, B])` are the entries of `merge([A])` followed by
the entries of `merge([B])`, each document's internal entry order
preserved. -/
theorem claim_C7 (A B : Json) (strict : Bool) (ea eb : List Json)
    (hA : merge_entries [A] strict = some (Json.obj [("entries", Json.arr ea)]))
    (hB : merge_entries [B] strict = some (Json.obj [("entries", Json.arr eb)])) :
    merge_entries [A, B] strict =
      some (Json.obj [("entries", Json.arr (ea ++ eb))]) :=
  merge_entries_pair A B strict ea eb
    (merge_entries_single A strict ea hA) (merge_entries_single B strict eb hB)

/-- Witness for claim C7: the spec's merge example, in file-sort order. -/
theorem claim_C7_witness :
    merge_entries
      [Json.obj [("entries", Json.arr [Json.obj [("id", Json.num 1)]])],
       Json.obj [("entries", Json.arr [Json.obj [("id", Json.num 2)]])]] false
    = some (Json.obj [("entries", Json.arr
        ([Json.obj [("id", Json.num 1)]] ++ [Json.obj [("id", Json.num 2)]]))]) :=
  claim_C7
    (Json.obj [("entries", Json.arr [Json.obj [("id", Json.num 1)]])])
    (Json.obj [("entries", Json.arr [Json.obj [("id", Json.num 2)]])])
    false [Json.obj [("id", Json.num 1)]] [Json.obj [("id", Json.num 2)]] rfl rfl
